import Mathlib

/-
A verification development for the chess rules engine in `ChessEngine.py`.

The engine is shallowly embedded: the board is an 8x8 grid of two-character
cells, Python list indexing (including negative-index wraparound and the
IndexError raised on indices outside -len..len-1) is modelled with
`pyIdx` / `pyGet?` / `pySet?`, and every method of `GameState` is translated
line by line into a Lean function.  Methods that can only fail through an
out-of-range board access (`getPawnMoves` and everything that calls it)
return `Option`, where `none` models the propagated IndexError.  The mutable
`self` object is threaded explicitly: every move generator receives and
returns a `GameState`, mirroring its in-place mutation of `self.pins` and,
in `getKingMoves`, of the king-location caches.
-/

set_option autoImplicit false

/-- A board cell: the two characters of the Python string, e.g. ('w','K');
('-','-') is the empty cell "--". -/
abbrev Cell := Char × Char

def emptyCell : Cell := ('-', '-')

/-- The 8x8 board grid. -/
abbrev Board := Fin 8 → Fin 8 → Cell

/-- Python list index semantics for a list of length 8: indices 0..7 hit
directly, -8..-1 wrap around, anything else raises IndexError (`none`). -/
def pyIdx (i : Int) : Option (Fin 8) :=
  if h : 0 ≤ i ∧ i < 8 then some ⟨i.toNat, by omega⟩
  else if h2 : -8 ≤ i ∧ i < 0 then some ⟨(i + 8).toNat, by omega⟩
  else none

/-- `board[r][c]` with Python semantics; `none` models IndexError. -/
def pyGet? (b : Board) (r c : Int) : Option Cell :=
  match pyIdx r, pyIdx c with
  | some i, some j => some (b i j)
  | _, _ => none

/-- Total variant of `pyGet?`, used at call sites whose surrounding bounds
check (or an invariant) already guarantees the indices are valid. -/
def pyGet (b : Board) (r c : Int) : Cell :=
  (pyGet? b r c).getD emptyCell

/-- Functional update of one grid cell. -/
def setF (b : Board) (i j : Fin 8) (v : Cell) : Board :=
  fun i' j' => if i' = i ∧ j' = j then v else b i' j'

/-- `board[r][c] = v` with Python semantics; `none` models IndexError. -/
def pySet? (b : Board) (r c : Int) (v : Cell) : Option Board :=
  match pyIdx r, pyIdx c with
  | some i, some j => some (setF b i j v)
  | _, _ => none

/-- The `Move` value object: start/end coordinates, the snapshots taken from
the board at construction time, and the coordinate-encoding `moveID` that
drives `Move.__eq__`. -/
structure Move where
  startRow : Int
  startCol : Int
  endRow : Int
  endCol : Int
  pieceMoved : Cell
  pieceCaptured : Cell
  moveID : Int
deriving DecidableEq

/-- The Python constructor `Move(startSq, endSq, board)`. -/
def Move.ofBoard (startSq endSq : Int × Int) (board : Board) : Move :=
  { startRow := startSq.1
    startCol := startSq.2
    endRow := endSq.1
    endCol := endSq.2
    pieceMoved := pyGet board startSq.1 startSq.2
    pieceCaptured := pyGet board endSq.1 endSq.2
    moveID := startSq.1 * 1000 + startSq.2 * 100 + endSq.1 * 10 + endSq.2 }

/-- Pin and check records: (row, col, dRow, dCol) tuples. -/
abbrev T4 := Int × Int × Int × Int

/-- The `GameState` object of the engine. -/
structure GameState where
  board : Board
  whiteToMove : Bool
  moveLog : List Move
  whiteKingLocation : Int × Int
  blackKingLocation : Int × Int
  inCheck : Bool
  pins : List T4
  checks : List T4

/-- The initial board literal from `GameState.__init__`. -/
def initRows : List (List Cell) :=
  [[('b','R'), ('b','N'), ('b','B'), ('b','Q'), ('b','K'), ('b','B'), ('b','N'), ('b','R')],
   [('b','P'), ('b','P'), ('b','P'), ('b','P'), ('b','P'), ('b','P'), ('b','P'), ('b','P')],
   [emptyCell, emptyCell, emptyCell, emptyCell, emptyCell, emptyCell, emptyCell, emptyCell],
   [emptyCell, emptyCell, emptyCell, emptyCell, emptyCell, emptyCell, emptyCell, emptyCell],
   [emptyCell, emptyCell, emptyCell, emptyCell, emptyCell, emptyCell, emptyCell, emptyCell],
   [emptyCell, emptyCell, emptyCell, emptyCell, emptyCell, emptyCell, emptyCell, emptyCell],
   [('w','P'), ('w','P'), ('w','P'), ('w','P'), ('w','P'), ('w','P'), ('w','P'), ('w','P')],
   [('w','R'), ('w','N'), ('w','B'), ('w','Q'), ('w','K'), ('w','B'), ('w','N'), ('w','R')]]

def initialBoard : Board :=
  fun r c => ((initRows.getD r.val []).getD c.val emptyCell)

/-- `GameState.__init__`. -/
def initialGameState : GameState :=
  { board := initialBoard
    whiteToMove := true
    moveLog := []
    whiteKingLocation := (7, 4)
    blackKingLocation := (0, 4)
    inCheck := false
    pins := []
    checks := [] }

/-- `kingLocation = self.whiteKingLocation if self.whiteToMove else
self.blackKingLocation` (lines 68 and 117). -/
def kingSq (gs : GameState) : Int × Int :=
  if gs.whiteToMove then gs.whiteKingLocation else gs.blackKingLocation

/-- `GameState.makeMove`; `none` models an IndexError from an out-of-range
move coordinate. -/
def makeMove (gs : GameState) (move : Move) : Option GameState :=
  match pySet? gs.board move.startRow move.startCol emptyCell with
  | none => none
  | some b1 =>
    match pySet? b1 move.endRow move.endCol move.pieceMoved with
    | none => none
    | some b2 =>
      let gs1 := { gs with board := b2, moveLog := gs.moveLog ++ [move] }
      let gs2 :=
        if move.pieceMoved = ('w', 'K') then
          { gs1 with whiteKingLocation := (move.endRow, move.endCol) }
        else if move.pieceMoved = ('b', 'K') then
          { gs1 with blackKingLocation := (move.endRow, move.endCol) }
        else gs1
      some { gs2 with whiteToMove := !gs2.whiteToMove }

/-- `GameState.undoMove`; the `if len(self.moveLog) != 0` guard appears as
the match on `getLast?`, and an empty log is a no-op returning normally. -/
def undoMove (gs : GameState) : Option GameState :=
  match gs.moveLog.getLast? with
  | none => some gs
  | some move =>
    match pySet? gs.board move.startRow move.startCol move.pieceMoved with
    | none => none
    | some b1 =>
      match pySet? b1 move.endRow move.endCol move.pieceCaptured with
      | none => none
      | some b2 =>
        let gs1 := { gs with board := b2, moveLog := gs.moveLog.dropLast }
        let gs2 :=
          if move.pieceMoved = ('w', 'K') then
            { gs1 with whiteKingLocation := (move.startRow, move.startCol) }
          else if move.pieceMoved = ('b', 'K') then
            { gs1 with blackKingLocation := (move.startRow, move.startCol) }
          else gs1
        some { gs2 with whiteToMove := !gs2.whiteToMove }

/-- The classification on line 143 of `checkForPinsAndChecks`: note the
source really writes `0 <= j < 3` and `4 <= j < 7`. -/
def attackCond (j : Nat) (pieceType : Char) (i : Int) (enemyColor : Char) : Prop :=
  (j < 3 ∧ pieceType = 'R') ∨
  (4 ≤ j ∧ j < 7 ∧ pieceType = 'B') ∨
  (i = 1 ∧ pieceType = 'P' ∧
    ((enemyColor = 'w' ∧ 6 ≤ j ∧ j ≤ 7) ∨ (enemyColor = 'b' ∧ 4 ≤ j ∧ j ≤ 5))) ∨
  (pieceType = 'Q') ∨
  (i = 1 ∧ pieceType = 'K')

instance (j : Nat) (t : Char) (i : Int) (e : Char) : Decidable (attackCond j t i e) := by
  unfold attackCond; infer_instance

/-- Accumulator for `checkForPinsAndChecks`. -/
structure PC where
  inChk : Bool
  pins : List T4
  checks : List T4

/-- The inner `for i in range(1, 8)` walk of one ray (lines 126-154). -/
def rayLoop (board : Board) (allyColor enemyColor : Char) (startRow startCol : Int)
    (j : Nat) (d : Int × Int) :
    List Int → Option T4 → PC → PC
  | [], _, st => st
  | i :: rest, possiblePin, st =>
    let endRow := startRow + d.1 * i
    let endCol := startCol + d.2 * i
    if 0 ≤ endRow ∧ endRow < 8 ∧ 0 ≤ endCol ∧ endCol < 8 then
      let endPiece := pyGet board endRow endCol
      if endPiece.1 = allyColor ∧ endPiece.2 ≠ 'K' then
        match possiblePin with
        | none => rayLoop board allyColor enemyColor startRow startCol j d rest
            (some (endRow, endCol, d.1, d.2)) st
        | some _ => st
      else if endPiece.1 = enemyColor then
        if attackCond j endPiece.2 i enemyColor then
          match possiblePin with
          | none => { st with inChk := true, checks := st.checks ++ [(endRow, endCol, d.1, d.2)] }
          | some pp => { st with pins := st.pins ++ [pp] }
        else st
      else
        rayLoop board allyColor enemyColor startRow startCol j d rest possiblePin st
    else st

def steps17 : List Int := [1, 2, 3, 4, 5, 6, 7]

def rayDirections : List (Int × Int) :=
  [(-1, 0), (0, -1), (1, 0), (0, 1), (-1, -1), (-1, 1), (1, -1), (1, 1)]

/-- The outer `for j in range(len(directions))` loop. -/
def raysLoop (board : Board) (allyColor enemyColor : Char) (startRow startCol : Int) :
    List (Nat × (Int × Int)) → PC → PC
  | [], st => st
  | (j, d) :: rest, st =>
    raysLoop board allyColor enemyColor startRow startCol rest
      (rayLoop board allyColor enemyColor startRow startCol j d steps17 none st)

def knightDirections : List (Int × Int) :=
  [(2, 1), (2, -1), (-2, 1), (-2, -1), (1, 2), (1, -2), (-1, 2), (-1, -2)]

/-- The knight-offset probe (lines 158-167).  As in the source, an in-bounds
square that does not hold an enemy knight executes `break`, abandoning the
remaining offsets. -/
def knightProbe (board : Board) (enemyColor : Char) (startRow startCol : Int) :
    List (Int × Int) → PC → PC
  | [], st => st
  | d :: rest, st =>
    let endRow := startRow + d.1
    let endCol := startCol + d.2
    if 0 ≤ endRow ∧ endRow < 8 ∧ 0 ≤ endCol ∧ endCol < 8 then
      let endPiece := pyGet board endRow endCol
      if endPiece.1 = enemyColor ∧ endPiece.2 = 'N' then
        knightProbe board enemyColor startRow startCol rest
          { st with inChk := true, checks := st.checks ++ [(endRow, endCol, d.1, d.2)] }
      else st
    else knightProbe board enemyColor startRow startCol rest st

/-- `GameState.checkForPinsAndChecks`. -/
def checkForPinsAndChecks (gs : GameState) : Bool × List T4 × List T4 :=
  let enemyColor := if gs.whiteToMove then 'b' else 'w'
  let allyColor := if gs.whiteToMove then 'w' else 'b'
  let kingLocation := kingSq gs
  let st1 := raysLoop gs.board allyColor enemyColor kingLocation.1 kingLocation.2
    rayDirections.enum ⟨false, [], []⟩
  let st2 := knightProbe gs.board enemyColor kingLocation.1 kingLocation.2
    knightDirections st1
  (st2.inChk, st2.pins, st2.checks)

/-- The pin scan shared by the generators (e.g. lines 214-219): iterate the
pin list backwards and take the first hit, i.e. the last matching entry. -/
def findPinRev : List T4 → Int → Int → Option T4
  | [], _, _ => none
  | p :: rest, row, col =>
    match findPinRev rest row col with
    | some q => some q
    | none => if p.1 = row ∧ p.2.1 = col then some p else none

/-- Python `list.remove`: delete the first occurrence of the value. -/
def removeFirstT4 : List T4 → T4 → List T4
  | [], _ => []
  | p :: rest, q => if p = q then rest else p :: removeFirstT4 rest q

/-- The move-building part of `GameState.getPawnMoves` (lines 221-267).
The forward reads `board[row -+ 1][col]` have no bounds guard in the source;
`pyGet?` reproduces the possible IndexError (a black pawn on row 7 reads
`board[8][col]`), which aborts the whole generator.  The later reads use the
total `pyGet`: once the first read succeeded, `row -+ 1` is a valid Python
index, and the column guards make the capture reads valid too. -/
def getPawnMovesList (gs : GameState) (row col : Int) (moves0 : List Move)
    (piecePinned : Bool) (pinDirection : Int × Int) : Option (List Move) :=
  if gs.whiteToMove then
    match pyGet? gs.board (row - 1) col with
    | none => none
    | some oneAhead =>
      let moves1 :=
        if oneAhead = emptyCell then
          if ¬piecePinned ∨ pinDirection = (-1, 0) then
            let m1 := moves0 ++ [Move.ofBoard (row, col) (row - 1, col) gs.board]
            if row = 6 ∧ pyGet gs.board (row - 2) col = emptyCell then
              m1 ++ [Move.ofBoard (row, col) (row - 2, col) gs.board]
            else m1
          else moves0
        else moves0
      let moves2 :=
        if col - 1 ≥ 0 then
          if (pyGet gs.board (row - 1) (col - 1)).1 = 'b' then
            if ¬piecePinned ∨ pinDirection = (-1, -1) then
              moves1 ++ [Move.ofBoard (row, col) (row - 1, col - 1) gs.board]
            else moves1
          else moves1
        else moves1
      let moves3 :=
        if col + 1 ≤ 7 then
          if (pyGet gs.board (row - 1) (col + 1)).1 = 'b' then
            if ¬piecePinned ∨ pinDirection = (-1, 1) then
              moves2 ++ [Move.ofBoard (row, col) (row - 1, col + 1) gs.board]
            else moves2
          else moves2
        else moves2
      some moves3
  else
    match pyGet? gs.board (row + 1) col with
    | none => none
    | some oneAhead =>
      let moves1 :=
        if oneAhead = emptyCell then
          if ¬piecePinned ∨ pinDirection = (1, 0) then
            let m1 := moves0 ++ [Move.ofBoard (row, col) (row + 1, col) gs.board]
            if row = 1 ∧ pyGet gs.board (row + 2) col = emptyCell then
              m1 ++ [Move.ofBoard (row, col) (row + 2, col) gs.board]
            else m1
          else moves0
        else moves0
      let moves2 :=
        if col - 1 ≥ 0 then
          if (pyGet gs.board (row + 1) (col - 1)).1 = 'w' then
            if ¬piecePinned ∨ pinDirection = (1, -1) then
              moves1 ++ [Move.ofBoard (row, col) (row + 1, col - 1) gs.board]
            else moves1
          else moves1
        else moves1
      let moves3 :=
        if col + 1 ≤ 7 then
          if (pyGet gs.board (row + 1) (col + 1)).1 = 'w' then
            if ¬piecePinned ∨ pinDirection = (1, 1) then
              moves2 ++ [Move.ofBoard (row, col) (row + 1, col + 1) gs.board]
            else moves2
          else moves2
        else moves2
      some moves3

/-- `GameState.getPawnMoves`: the pin scan and removal (lines 212-219)
followed by the move building; the pin-stripped state is returned along the
moves, mirroring the in-place mutation of `self.pins`. -/
def getPawnMoves (gs0 : GameState) (row col : Int) (moves0 : List Move) :
    Option (List Move × GameState) :=
  let pinEntry := findPinRev gs0.pins row col
  let piecePinned := pinEntry.isSome
  let pinDirection : Int × Int :=
    match pinEntry with
    | some p => (p.2.2.1, p.2.2.2)
    | none => (0, 0)
  let gs : GameState :=
    { gs0 with pins := match pinEntry with
        | some p => removeFirstT4 gs0.pins p
        | none => gs0.pins }
  (getPawnMovesList gs row col moves0 piecePinned pinDirection).map (fun ms => (ms, gs))

/-- One sliding ray (`for i in range(1, 8)`), the loop body shared verbatim
by `getRookMoves` (lines 289-308) and `getBishopMoves` (lines 361-379). -/
def slideRay (board : Board) (enemyColor : Char) (piecePinned : Bool)
    (pinDirection : Int × Int) (row col : Int) (d : Int × Int) :
    List Int → List Move → List Move
  | [], moves => moves
  | i :: rest, moves =>
    let endRow := row + d.1 * i
    let endCol := col + d.2 * i
    if 0 ≤ endRow ∧ endRow < 8 ∧ 0 ≤ endCol ∧ endCol < 8 then
      if ¬piecePinned ∨ pinDirection = d ∨ pinDirection = (-d.1, -d.2) then
        let endPiece := pyGet board endRow endCol
        if endPiece = emptyCell then
          slideRay board enemyColor piecePinned pinDirection row col d rest
            (moves ++ [Move.ofBoard (row, col) (endRow, endCol) board])
        else if endPiece.1 = enemyColor then
          moves ++ [Move.ofBoard (row, col) (endRow, endCol) board]
        else moves
      else
        slideRay board enemyColor piecePinned pinDirection row col d rest moves
    else moves

def rookDirections : List (Int × Int) := [(-1, 0), (1, 0), (0, -1), (0, 1)]

def bishopDirections : List (Int × Int) := [(-1, -1), (1, -1), (-1, 1), (1, 1)]

/-- `GameState.getRookMoves`; a queen keeps its pin entry here (line 281). -/
def getRookMoves (gs0 : GameState) (row col : Int) (moves0 : List Move) :
    List Move × GameState :=
  let pinEntry := findPinRev gs0.pins row col
  let piecePinned := pinEntry.isSome
  let pinDirection : Int × Int :=
    match pinEntry with
    | some p => (p.2.2.1, p.2.2.2)
    | none => (0, 0)
  let gs : GameState :=
    { gs0 with pins := match pinEntry with
        | some p =>
          if (pyGet gs0.board row col).2 ≠ 'Q' then removeFirstT4 gs0.pins p
          else gs0.pins
        | none => gs0.pins }
  let enemyColor := if gs.whiteToMove then 'b' else 'w'
  (rookDirections.foldl
    (fun ms d => slideRay gs.board enemyColor piecePinned pinDirection row col d steps17 ms)
    moves0, gs)

/-- `GameState.getBishopMoves`; the pin entry is removed unconditionally. -/
def getBishopMoves (gs0 : GameState) (row col : Int) (moves0 : List Move) :
    List Move × GameState :=
  let pinEntry := findPinRev gs0.pins row col
  let piecePinned := pinEntry.isSome
  let pinDirection : Int × Int :=
    match pinEntry with
    | some p => (p.2.2.1, p.2.2.2)
    | none => (0, 0)
  let gs : GameState :=
    { gs0 with pins := match pinEntry with
        | some p => removeFirstT4 gs0.pins p
        | none => gs0.pins }
  let enemyColor := if gs.whiteToMove then 'b' else 'w'
  (bishopDirections.foldl
    (fun ms d => slideRay gs.board enemyColor piecePinned pinDirection row col d steps17 ms)
    moves0, gs)

/-- The knight offset loop (lines 326-342).  As in the source, the first
off-board offset executes `break` and abandons the remaining offsets. -/
def knightHops (board : Board) (enemyColor : Char) (piecePinned : Bool) (row col : Int) :
    List (Int × Int) → List Move → List Move
  | [], moves => moves
  | d :: rest, moves =>
    let endRow := row + d.1
    let endCol := col + d.2
    if 0 ≤ endRow ∧ endRow < 8 ∧ 0 ≤ endCol ∧ endCol < 8 then
      if ¬piecePinned then
        let endPiece := pyGet board endRow endCol
        if endPiece = emptyCell then
          knightHops board enemyColor piecePinned row col rest
            (moves ++ [Move.ofBoard (row, col) (endRow, endCol) board])
        else if endPiece.1 = enemyColor then
          knightHops board enemyColor piecePinned row col rest
            (moves ++ [Move.ofBoard (row, col) (endRow, endCol) board])
        else knightHops board enemyColor piecePinned row col rest moves
      else knightHops board enemyColor piecePinned row col rest moves
    else moves

/-- `GameState.getKnightMoves`. -/
def getKnightMoves (gs0 : GameState) (row col : Int) (moves0 : List Move) :
    List Move × GameState :=
  let pinEntry := findPinRev gs0.pins row col
  let piecePinned := pinEntry.isSome
  let gs : GameState :=
    { gs0 with pins := match pinEntry with
        | some p => removeFirstT4 gs0.pins p
        | none => gs0.pins }
  let enemyColor := if gs.whiteToMove then 'b' else 'w'
  (knightHops gs.board enemyColor piecePinned row col knightDirections moves0, gs)

/-- `GameState.getQueenMoves`: bishop phase first, then rook phase. -/
def getQueenMoves (gs : GameState) (row col : Int) (moves : List Move) :
    List Move × GameState :=
  let r1 := getBishopMoves gs row col moves
  getRookMoves r1.2 row col r1.1

/-- The zipped `(rowMoves[i], colMoves[i])` offsets of `getKingMoves`. -/
def kingOffsets : List (Int × Int) :=
  [(-1, -1), (-1, 0), (-1, 1), (0, -1), (0, 1), (1, -1), (1, 0), (1, 1)]

/-- The `for i in range(8)` loop of `getKingMoves`: trial-place the king
cache on the candidate square, rerun the analysis, and restore the cache to
`(row, col)` on every path. -/
def kingLoop (row col : Int) (allyColor : Char) :
    List (Int × Int) → List Move → GameState → List Move × GameState
  | [], moves, gs => (moves, gs)
  | d :: rest, moves, gs =>
    let endRow := row + d.1
    let endCol := col + d.2
    if 0 ≤ endRow ∧ endRow < 8 ∧ 0 ≤ endCol ∧ endCol < 8 then
      let endPiece := pyGet gs.board endRow endCol
      if endPiece.1 ≠ allyColor then
        let gs1 :=
          if allyColor = 'w' then { gs with whiteKingLocation := (endRow, endCol) }
          else { gs with blackKingLocation := (endRow, endCol) }
        let trial := checkForPinsAndChecks gs1
        let moves1 :=
          if trial.1 = false then
            moves ++ [Move.ofBoard (row, col) (endRow, endCol) gs1.board]
          else moves
        let gs2 :=
          if allyColor = 'w' then { gs1 with whiteKingLocation := (row, col) }
          else { gs1 with blackKingLocation := (row, col) }
        kingLoop row col allyColor rest moves1 gs2
      else kingLoop row col allyColor rest moves gs
    else kingLoop row col allyColor rest moves gs

/-- `GameState.getKingMoves`. -/
def getKingMoves (gs : GameState) (row col : Int) (moves : List Move) :
    List Move × GameState :=
  let allyColor := if gs.whiteToMove then 'w' else 'b'
  kingLoop row col allyColor kingOffsets moves gs

/-- The `self.moveFunction` dispatch table; an unknown piece letter is a
Python KeyError, modelled as `none`. -/
def pieceDispatch (gs : GameState) (r c : Int) (piece : Char) (moves : List Move) :
    Option (List Move × GameState) :=
  match piece with
  | 'P' => getPawnMoves gs r c moves
  | 'R' => some (getRookMoves gs r c moves)
  | 'N' => some (getKnightMoves gs r c moves)
  | 'B' => some (getBishopMoves gs r c moves)
  | 'Q' => some (getQueenMoves gs r c moves)
  | 'K' => some (getKingMoves gs r c moves)
  | _ => none

/-- The row-major square enumeration of `getAllPossibleMoves`. -/
def allSquares : List (Int × Int) :=
  (List.range 8).flatMap (fun r => (List.range 8).map (fun c => (Int.ofNat r, Int.ofNat c)))

/-- The nested `for r / for c` loop of `getAllPossibleMoves`. -/
def gapLoop : List (Int × Int) → List Move → GameState → Option (List Move × GameState)
  | [], moves, gs => some (moves, gs)
  | (r, c) :: rest, moves, gs =>
    let turn := (pyGet gs.board r c).1
    if (turn = 'w' ∧ gs.whiteToMove = true) ∨ (turn = 'b' ∧ gs.whiteToMove = false) then
      match pieceDispatch gs r c (pyGet gs.board r c).2 moves with
      | some (m1, gs1) => gapLoop rest m1 gs1
      | none => none
    else gapLoop rest moves gs

/-- `GameState.getAllPossibleMoves`. -/
def getAllPossibleMoves (gs : GameState) : Option (List Move × GameState) :=
  gapLoop allSquares [] gs

/-- The `for i in range(1, 8)` walk building `validSquares` (lines 84-91). -/
def validSquaresLoop (kingRow kingCol d1 d2 checkRow checkCol : Int) :
    List Int → List (Int × Int) → List (Int × Int)
  | [], acc => acc
  | i :: rest, acc =>
    let validSquare := (kingRow + d1 * i, kingCol + d2 * i)
    let acc1 := acc ++ [validSquare]
    if validSquare.1 = checkRow ∧ validSquare.2 = checkCol then acc1
    else validSquaresLoop kingRow kingCol d1 d2 checkRow checkCol rest acc1

/-- Python `list.remove` keyed on `Move.__eq__`, i.e. on `moveID`. -/
def removeFirstEq : List Move → Move → List Move
  | [], _ => []
  | x :: xs, m => if x.moveID = m.moveID then xs else x :: removeFirstEq xs m

/-- One iteration of the backwards pruning loop (lines 94-99): inspect
`moves[i]` and remove it unless it is a king move or lands on a blocking
square.  (The `none` branch models Python's IndexError; the loop invariant
proved below shows the index is always in range.) -/
def pruneStep (validSquares : List (Int × Int)) (moves : List Move) (i : Nat) :
    List Move :=
  match moves.get? i with
  | none => moves
  | some m =>
    if m.pieceMoved.2 ≠ 'K' ∧ ¬((m.endRow, m.endCol) ∈ validSquares) then
      removeFirstEq moves m
    else moves

/-- `for i in range(len(moves) - 1, -1, -1)`. -/
def pruneLoop (validSquares : List (Int × Int)) : Nat → List Move → List Move
  | 0, moves => moves
  | i + 1, moves => pruneLoop validSquares i (pruneStep validSquares moves i)

/-- Lines 68-105 of `getValidMoves`, after the analysis fields have been
assigned.  Note that in the source the pruning loop (lines 94-99) is
indented inside the `else:` of the knight test (line 80), so when the
single checker is a Knight the pseudo-legal moves are returned unpruned
and the knight-branch assignment `validSquares = [(checkRow, checkCol)]`
is dead. -/
def getValidMovesAux (gs : GameState) : Option (List Move × GameState) :=
  let kingLocation := kingSq gs
  let kingRow := kingLocation.1
  let kingCol := kingLocation.2
  if gs.inCheck then
    if gs.checks.length = 1 then
      match getAllPossibleMoves gs with
      | none => none
      | some (moves, gs1) =>
        let check := gs1.checks.headD (0, 0, 0, 0)
        let checkRow := check.1
        let checkCol := check.2.1
        let pieceChecking := pyGet gs1.board checkRow checkCol
        if pieceChecking.2 = 'N' then
          some (moves, gs1)
        else
          let validSquares :=
            validSquaresLoop kingRow kingCol check.2.2.1 check.2.2.2 checkRow checkCol
              steps17 []
          some (pruneLoop validSquares moves.length moves, gs1)
    else
      some (getKingMoves gs kingRow kingCol [])
  else
    getAllPossibleMoves gs

/-- `GameState.getValidMoves`: recompute and store the pin/check analysis,
then assemble the legal moves. -/
def getValidMoves (gs : GameState) : Option (List Move × GameState) :=
  let a := checkForPinsAndChecks gs
  getValidMovesAux { gs with inCheck := a.1, pins := a.2.1, checks := a.2.2 }

/-- The analysis-updated state written by the first line of
`getValidMoves`, named for use in the theorems below. -/
def analysisSet (gs : GameState) : GameState :=
  { gs with inCheck := (checkForPinsAndChecks gs).1
            pins := (checkForPinsAndChecks gs).2.1
            checks := (checkForPinsAndChecks gs).2.2 }

/-- Build a board from a list of occupied squares (row-major coordinates). -/
def boardOf (ps : List ((Nat × Nat) × Cell)) : Board :=
  fun r c =>
    ((ps.find? (fun q => q.1.1 == r.val && q.1.2 == c.val)).map Prod.snd).getD emptyCell

/-- Build a game state with an empty move log and a reset analysis. -/
def mkGS (ps : List ((Nat × Nat) × Cell)) (wtm : Bool) (wk bk : Int × Int) : GameState :=
  { board := boardOf ps
    whiteToMove := wtm
    moveLog := []
    whiteKingLocation := wk
    blackKingLocation := bk
    inCheck := false
    pins := []
    checks := [] }

/-- Construct the `Move` from the current board (as the GUI does) and apply
it with `makeMove`. -/
def makeSq (gs : GameState) (s e : Int × Int) : Option GameState :=
  makeMove gs (Move.ofBoard s e gs.board)

/-- Cache coherence for the side to move: every board square holding the
moving side's king is exactly the cached king location.  This is the
invariant the spec states in section 3 ("King-location cache must equal the
board cell it points to"). -/
def cacheCoherent (gs : GameState) : Prop :=
  ∀ r c : Fin 8, gs.board r c = ((if gs.whiteToMove then 'w' else 'b'), 'K') →
    kingSq gs = ((r.val : Int), (c.val : Int))

instance (gs : GameState) : Decidable (cacheCoherent gs) := by
  unfold cacheCoherent; infer_instance

/-- C2 scenario: white king e4, black knight on the (1,2) offset square,
nothing on the (2,1) offset square, which the probe inspects first. -/
def gsC2 : GameState :=
  mkGS [((4, 4), ('w', 'K')), ((5, 6), ('b', 'N')), ((0, 0), ('b', 'K'))]
    true (4, 4) (0, 0)

/-- C4 scenario: white queen pinned horizontally between its king and a
black rook. -/
def gsC4 : GameState :=
  mkGS [((4, 7), ('w', 'K')), ((4, 4), ('w', 'Q')), ((4, 0), ('b', 'R'))]
    true (4, 7) (0, 0)

/-- C5 scenario: three `makeMove` steps from the initial position leave the
black a-pawn on row 7 with black to move. -/
def gsC5o : Option GameState :=
  (makeSq initialGameState (6, 0) (5, 0)).bind (fun g1 =>
    (makeSq g1 (1, 0) (7, 0)).bind (fun g2 =>
      makeSq g2 (6, 1) (5, 1)))

def gsC5 : GameState := gsC5o.getD initialGameState

/-- C6 counterexample scenario: the white cache points at a pawn while two
black rooks give "double check" on the cached square. -/
def gsC6 : GameState :=
  mkGS [((4, 4), ('w', 'P')), ((4, 0), ('b', 'R')), ((0, 4), ('b', 'R'))]
    true (4, 4) (7, 7)

/-- C6 witness scenario: a genuine double check on the white king. -/
def gsW6 : GameState :=
  mkGS [((4, 4), ('w', 'K')), ((4, 0), ('b', 'R')), ((0, 4), ('b', 'R'))]
    true (4, 4) (7, 7)

/-- C7 counterexample scenario: the white king sits on e4 but the cache
points at a8. -/
def gsC7 : GameState :=
  mkGS [((4, 4), ('w', 'K'))] true (0, 0) (7, 7)

def mvC7 : Move := Move.ofBoard (4, 4) (4, 5) gsC7.board

/-- C8/C10-style counterexample scenario: the white cache points at the
empty square e4 while the king really stands on a8. -/
def gsC8 : GameState :=
  mkGS [((0, 0), ('w', 'K')), ((7, 0), ('b', 'R')), ((3, 3), ('w', 'P'))]
    true (4, 4) (7, 7)

/-- C10 counterexample scenario: lone white king on a8, cache on e4. -/
def gsC10 : GameState :=
  mkGS [((0, 0), ('w', 'K'))] true (4, 4) (7, 7)

/-- C1 scenario: white king (4,4) checked by the lone black knight on
(6,5) (the first probed offset, so the check is reported), with a white
pawn on (1,0) far from the knight. -/
def gsC1b : GameState :=
  mkGS [((4, 4), ('w', 'K')), ((6, 5), ('b', 'N')), ((1, 0), ('w', 'P')),
    ((0, 7), ('b', 'K'))] true (4, 4) (0, 7)

/-- C7 witness move: the pawn advance a2a3 from the initial position. -/
def mvW7 : Move := Move.ofBoard (6, 0) (5, 0) initialGameState.board

def gsW7 : GameState := (makeMove initialGameState mvW7).getD initialGameState

theorem GameState.ext2 {a b : GameState} (h1 : a.board = b.board)
    (h2 : a.whiteToMove = b.whiteToMove) (h3 : a.moveLog = b.moveLog)
    (h4 : a.whiteKingLocation = b.whiteKingLocation)
    (h5 : a.blackKingLocation = b.blackKingLocation)
    (h6 : a.inCheck = b.inCheck) (h7 : a.pins = b.pins)
    (h8 : a.checks = b.checks) : a = b := by
  cases a; cases b; simp_all

/-- C2: the claim is violated by the code.  With the white king on (4,4) and
a black knight on the offset square (5,6), `checkForPinsAndChecks` reports
no check at all: the probe inspects the in-bounds offset square (6,5) first,
finds it empty and executes `break`, abandoning the remaining offsets. -/
theorem c2_knight_probe_stops_early :
    checkForPinsAndChecks gsC2 = (false, [], []) ∧
    pyGet gsC2.board 5 6 = ('b', 'N') ∧
    (4 + 1, 4 + 2) = ((5 : Int), (6 : Int)) ∧
    gsC2.whiteToMove = true := by
  refine ⟨by decide, by decide, by decide, by decide⟩

/-- C3: the claim is violated by the code.  From the standard initial
position `getValidMoves` returns 16 moves, not 20: `getKnightMoves` breaks
out of its offset loop at the first off-board offset, so the knights on
(7,1) and (7,6) generate no moves. -/
theorem c3_initial_position_sixteen_moves :
    (getValidMoves initialGameState).map (fun p => p.1.length) = some 16 ∧
    (getValidMoves initialGameState).map
      (fun p => p.1.countP (fun m => m.pieceMoved.2 == 'N')) = some 0 := by
  refine ⟨by decide, by decide⟩

/-- C4: the claim is violated by the code.  In `gsC4` the white queen on
(4,4) is pinned along (0,-1), yet `getValidMoves` emits the queen move
(4,4) to (3,4), which leaves the pin line: `getQueenMoves` runs the bishop
phase first, which deletes the pin entry, so the rook phase generates
unrestricted orthogonal moves. -/
theorem c4_pinned_queen_escapes_pin :
    (checkForPinsAndChecks gsC4).2.1 = [(4, 4, 0, -1)] ∧
    (getValidMoves gsC4).map (fun p =>
      p.1.any (fun m =>
        decide (m.startRow = 4 ∧ m.startCol = 4 ∧ m.endRow = 3 ∧ m.endCol = 4))) =
      some true ∧
    ((3 - 4 : Int), (4 - 4 : Int)) ≠ ((0 : Int), (-1 : Int)) ∧
    ((3 - 4 : Int), (4 - 4 : Int)) ≠ ((0 : Int), (1 : Int)) := by
  refine ⟨by decide, by decide, by decide, by decide⟩

/-- C5: the claim is violated by the code.  Three of the engine's own
`makeMove` steps relocate the black a-pawn to row 7; the next
`getValidMoves` query for black then evaluates `board[7 + 1][0]`, an
out-of-range row index (IndexError, modelled as `none`). -/
theorem c5_black_pawn_row7_out_of_range :
    gsC5o = some gsC5 ∧
    gsC5.whiteToMove = false ∧
    pyGet gsC5.board 7 0 = ('b', 'P') ∧
    pyGet? gsC5.board (7 + 1) 0 = none ∧
    getValidMoves gsC5 = none := by
  refine ⟨by rfl, by decide, by decide, by decide, by rfl⟩

/-- C6 counterexample: in `gsC6` the analysis reports two checks (computed
from the cached square (4,4), which actually holds a white pawn), and the
"double check" branch emits moves whose moved piece is that pawn, so not
every returned move has a King as its moved piece. -/
theorem c6_counterexample :
    ((checkForPinsAndChecks gsC6).2.2).length = 2 ∧
    (getValidMoves gsC6).map (fun p => p.1.all (fun m => m.pieceMoved.2 == 'K')) =
      some false := by
  refine ⟨by decide, by decide⟩

/-- C7 counterexample: in `gsC7` the king move's snapshots match the board,
but the white king cache starts at (0,0) while the king stands on (4,4);
after make followed by undo the cache reads (4,4), not its pre-move value. -/
theorem c7_counterexample :
    pyGet? gsC7.board mvC7.startRow mvC7.startCol = some mvC7.pieceMoved ∧
    pyGet? gsC7.board mvC7.endRow mvC7.endCol = some mvC7.pieceCaptured ∧
    gsC7.whiteKingLocation = (0, 0) ∧
    ((makeMove gsC7 mvC7).bind undoMove).map (fun g => g.whiteKingLocation) =
      some (4, 4) ∧
    ((4 : Int), (4 : Int)) ≠ ((0 : Int), (0 : Int)) := by
  refine ⟨by decide, by decide, by decide, by decide, by decide⟩

/-- C8 counterexample: in `gsC8` the white cache points at the empty square
(4,4) while the king stands on (0,0).  The first `getValidMoves` call
returns three moves and leaves the cache repointed to (0,0); the second
call then sees the rook check on (0,0) and returns only two moves. -/
theorem c8_counterexample :
    ((getValidMoves gsC8).bind (fun p => (getValidMoves p.2).map Prod.fst)) ≠
      (getValidMoves gsC8).map Prod.fst ∧
    (getValidMoves gsC8).map (fun p => p.1.length) = some 3 ∧
    ((getValidMoves gsC8).bind (fun p => getValidMoves p.2)).map
      (fun p => p.1.length) = some 2 := by
  refine ⟨by decide, by decide, by decide⟩

/-- C10 counterexample: in `gsC10` the lone white king stands on (0,0) but
the cache reads (4,4); `getValidMoves` "restores" the cache to the board
square (0,0), so the king-location cache does not keep its pre-call value. -/
theorem c10_counterexample :
    gsC10.whiteKingLocation = (4, 4) ∧
    (getValidMoves gsC10).map (fun p => p.2.whiteKingLocation) = some (0, 0) ∧
    ((0 : Int), (0 : Int)) ≠ ((4 : Int), (4 : Int)) := by
  refine ⟨by decide, by decide, by decide⟩

/-- C9: `undoMove` on a state with an empty move history is a silent no-op:
it returns the state unchanged and raises no error. -/
theorem c9_undo_empty_noop (gs : GameState) (h : gs.moveLog = []) :
    undoMove gs = some gs := by
  unfold undoMove
  rw [h]
  rfl

/-- Witness for C9 at the freshly constructed game state. -/
theorem c9_undo_empty_noop_witness :
    initialGameState.moveLog = [] ∧ undoMove initialGameState = some initialGameState :=
  ⟨rfl, c9_undo_empty_noop initialGameState rfl⟩

theorem setF_same (b : Board) (i j : Fin 8) (v : Cell) : setF b i j v i j = v := by
  simp [setF]

theorem setF_ne (b : Board) (i j : Fin 8) (v : Cell) {i' j' : Fin 8}
    (h : ¬(i' = i ∧ j' = j)) : setF b i j v i' j' = b i' j' := by
  simp [setF, h]

theorem pyGet?_eq {b : Board} {r c : Int} {i j : Fin 8}
    (hr : pyIdx r = some i) (hc : pyIdx c = some j) : pyGet? b r c = some (b i j) := by
  unfold pyGet?; rw [hr, hc]

theorem pySet?_eq {b : Board} {r c : Int} {i j : Fin 8}
    (hr : pyIdx r = some i) (hc : pyIdx c = some j) (v : Cell) :
    pySet? b r c v = some (setF b i j v) := by
  unfold pySet?; rw [hr, hc]

theorem pyGet?_none_row {b : Board} {r : Int} (c : Int) (hr : pyIdx r = none) :
    pyGet? b r c = none := by
  unfold pyGet?; rw [hr]

theorem pyGet?_none_col {b : Board} {r c : Int} (hc : pyIdx c = none) :
    pyGet? b r c = none := by
  unfold pyGet?; rw [hc]; cases pyIdx r <;> rfl

theorem makeMove_eq (gs : GameState) (m : Move) {isr jsc ier jec : Fin 8}
    (his : pyIdx m.startRow = some isr) (hjs : pyIdx m.startCol = some jsc)
    (hie : pyIdx m.endRow = some ier) (hje : pyIdx m.endCol = some jec) :
    makeMove gs m = some
      { board := setF (setF gs.board isr jsc emptyCell) ier jec m.pieceMoved
        whiteToMove := !gs.whiteToMove
        moveLog := gs.moveLog ++ [m]
        whiteKingLocation :=
          if m.pieceMoved = ('w', 'K') then (m.endRow, m.endCol) else gs.whiteKingLocation
        blackKingLocation :=
          if m.pieceMoved = ('b', 'K') then (m.endRow, m.endCol) else gs.blackKingLocation
        inCheck := gs.inCheck
        pins := gs.pins
        checks := gs.checks } := by
  unfold makeMove
  simp only [pySet?_eq his hjs, pySet?_eq hie hje]
  by_cases hpw : m.pieceMoved = ('w', 'K')
  · have hpb : ¬ m.pieceMoved = ('b', 'K') := by rw [hpw]; decide
    simp [hpw, hpb]
  · by_cases hpb : m.pieceMoved = ('b', 'K') <;> simp [hpw, hpb]

theorem undoMove_eq (gs : GameState) (m : Move) {isr jsc ier jec : Fin 8}
    (hlast : gs.moveLog.getLast? = some m)
    (his : pyIdx m.startRow = some isr) (hjs : pyIdx m.startCol = some jsc)
    (hie : pyIdx m.endRow = some ier) (hje : pyIdx m.endCol = some jec) :
    undoMove gs = some
      { board := setF (setF gs.board isr jsc m.pieceMoved) ier jec m.pieceCaptured
        whiteToMove := !gs.whiteToMove
        moveLog := gs.moveLog.dropLast
        whiteKingLocation :=
          if m.pieceMoved = ('w', 'K') then (m.startRow, m.startCol) else gs.whiteKingLocation
        blackKingLocation :=
          if m.pieceMoved = ('b', 'K') then (m.startRow, m.startCol) else gs.blackKingLocation
        inCheck := gs.inCheck
        pins := gs.pins
        checks := gs.checks } := by
  unfold undoMove
  rw [hlast]
  simp only [pySet?_eq his hjs, pySet?_eq hie hje]
  by_cases hpw : m.pieceMoved = ('w', 'K')
  · have hpb : ¬ m.pieceMoved = ('b', 'K') := by rw [hpw]; decide
    simp [hpw, hpb]
  · by_cases hpb : m.pieceMoved = ('b', 'K') <;> simp [hpw, hpb]

/-- C7 (amended): for every game state and snapshot-consistent move, if a
moved king's cache already pointed at the move's start square, then
make-move followed by undo-move restores the board, the active color, both
King-location caches and the move history exactly. -/
theorem c7_make_undo_roundtrip (gs : GameState) (m : Move)
    (hm : pyGet? gs.board m.startRow m.startCol = some m.pieceMoved)
    (hc : pyGet? gs.board m.endRow m.endCol = some m.pieceCaptured)
    (hw : m.pieceMoved = ('w', 'K') → gs.whiteKingLocation = (m.startRow, m.startCol))
    (hb : m.pieceMoved = ('b', 'K') → gs.blackKingLocation = (m.startRow, m.startCol))
    (gs' : GameState) (hmk : makeMove gs m = some gs') :
    undoMove gs' = some gs := by
  cases his : pyIdx m.startRow with
  | none => rw [pyGet?_none_row m.startCol his] at hm; exact absurd hm (by simp)
  | some isr =>
  cases hjs : pyIdx m.startCol with
  | none => rw [pyGet?_none_col hjs] at hm; exact absurd hm (by simp)
  | some jsc =>
  cases hie : pyIdx m.endRow with
  | none => rw [pyGet?_none_row m.endCol hie] at hc; exact absurd hc (by simp)
  | some ier =>
  cases hje : pyIdx m.endCol with
  | none => rw [pyGet?_none_col hje] at hc; exact absurd hc (by simp)
  | some jec =>
  rw [pyGet?_eq his hjs] at hm
  rw [pyGet?_eq hie hje] at hc
  have hm' : gs.board isr jsc = m.pieceMoved := by injection hm
  have hc' : gs.board ier jec = m.pieceCaptured := by injection hc
  rw [makeMove_eq gs m his hjs hie hje] at hmk
  have hgs' := (Option.some_inj.mp hmk).symm
  subst hgs'
  rw [undoMove_eq _ m (by simp [List.getLast?_concat]) his hjs hie hje]
  congr 1
  have hboard :
      setF (setF (setF (setF gs.board isr jsc emptyCell) ier jec m.pieceMoved) isr jsc
        m.pieceMoved) ier jec m.pieceCaptured = gs.board := by
    funext i j
    by_cases h1 : i = ier ∧ j = jec
    · obtain ⟨rfl, rfl⟩ := h1
      rw [setF_same, hc']
    · rw [setF_ne _ _ _ _ h1]
      by_cases h2 : i = isr ∧ j = jsc
      · obtain ⟨rfl, rfl⟩ := h2
        rw [setF_same, hm']
      · rw [setF_ne _ _ _ _ h2, setF_ne _ _ _ _ h1, setF_ne _ _ _ _ h2]
  refine GameState.ext2 ?_ ?_ ?_ ?_ ?_ ?_ ?_ ?_ <;>
    simp [hboard, List.dropLast_concat]
  · by_cases hpw : m.pieceMoved = ('w', 'K') <;> simp [hpw, hw]
  · by_cases hpb : m.pieceMoved = ('b', 'K') <;> simp [hpb, hb]

/-- Witness for C7 at the pawn advance a2a3 from the initial position. -/
theorem c7_make_undo_roundtrip_witness :
    pyGet? initialGameState.board mvW7.startRow mvW7.startCol = some mvW7.pieceMoved ∧
    pyGet? initialGameState.board mvW7.endRow mvW7.endCol = some mvW7.pieceCaptured ∧
    undoMove gsW7 = some initialGameState :=
  ⟨by decide, by decide,
    c7_make_undo_roundtrip initialGameState mvW7 (by decide) (by decide)
      (by decide) (by decide) gsW7 (by rfl)⟩

def pcOK (st : PC) : Prop := st.checks ≠ [] → st.inChk = true

theorem rayLoop_pcOK (board : Board) (ally enemy : Char) (sr sc : Int) (j : Nat)
    (d : Int × Int) : ∀ (steps : List Int) (pp : Option T4) (st : PC), pcOK st →
    pcOK (rayLoop board ally enemy sr sc j d steps pp st) := by
  intro steps
  induction steps with
  | nil => intro pp st h; exact h
  | cons i rest ih =>
    intro pp st h
    rw [rayLoop.eq_def]
    dsimp only
    split
    · split
      · cases pp with
        | none => exact ih _ _ h
        | some q => exact h
      · split
        · split
          · cases pp with
            | none => intro _; rfl
            | some q => exact h
          · exact h
        · exact ih _ _ h
    · exact h

theorem raysLoop_pcOK (board : Board) (ally enemy : Char) (sr sc : Int) :
    ∀ (dirs : List (Nat × (Int × Int))) (st : PC), pcOK st →
    pcOK (raysLoop board ally enemy sr sc dirs st) := by
  intro dirs
  induction dirs with
  | nil => intro st h; exact h
  | cons jd rest ih =>
    intro st h
    cases jd with
    | mk j d => exact ih _ (rayLoop_pcOK board ally enemy sr sc j d steps17 none st h)

theorem knightProbe_pcOK (board : Board) (enemy : Char) (sr sc : Int) :
    ∀ (dirs : List (Int × Int)) (st : PC), pcOK st →
    pcOK (knightProbe board enemy sr sc dirs st) := by
  intro dirs
  induction dirs with
  | nil => intro st h; exact h
  | cons d rest ih =>
    intro st h
    rw [knightProbe.eq_def]
    dsimp only
    split
    · split
      · exact ih _ (fun _ => rfl)
      · exact h
    · exact ih _ h

theorem checks_imp_inCheck (gs : GameState)
    (h : (checkForPinsAndChecks gs).2.2 ≠ []) : (checkForPinsAndChecks gs).1 = true := by
  unfold checkForPinsAndChecks at h ⊢
  dsimp only at h ⊢
  refine knightProbe_pcOK _ _ _ _ _ _ (raysLoop_pcOK _ _ _ _ _ _ _ ?_) h
  intro hne
  exact absurd rfl hne

def moveOK (validSquares : List (Int × Int)) (m : Move) : Prop :=
  m.pieceMoved.2 = 'K' ∨ (m.endRow, m.endCol) ∈ validSquares

theorem removeFirstEq_eraseIdx : ∀ (ms : List Move) (m : Move) (i : Nat),
    ms.get? i = some m → ∃ j, j ≤ i ∧ removeFirstEq ms m = ms.eraseIdx j := by
  intro ms
  induction ms with
  | nil => intro m i h; simp at h
  | cons x xs ih =>
    intro m i h
    by_cases hx : x.moveID = m.moveID
    · exact ⟨0, Nat.zero_le i, by simp [removeFirstEq, hx, List.eraseIdx]⟩
    · cases i with
      | zero =>
        injection h with h2
        subst h2
        exact absurd rfl hx
      | succ i' =>
        obtain ⟨j, hj, hrm⟩ := ih m i' h
        refine ⟨j + 1, Nat.succ_le_succ hj, ?_⟩
        simp [removeFirstEq, hx, hrm, List.eraseIdx]

theorem get?_eraseIdx_ge : ∀ (ms : List Move) (j k : Nat), j ≤ k →
    (ms.eraseIdx j).get? k = ms.get? (k + 1) := by
  intro ms
  induction ms with
  | nil => intro j k h; simp [List.eraseIdx]
  | cons x xs ih =>
    intro j k h
    cases j with
    | zero => simp [List.eraseIdx]
    | succ j' =>
      cases k with
      | zero => omega
      | succ k' =>
        simp only [List.eraseIdx, List.get?]
        exact ih j' k' (Nat.le_of_succ_le_succ h)

def suffixOK (validSquares : List (Int × Int)) (i : Nat) (ms : List Move) : Prop :=
  ∀ k, i ≤ k → ∀ m, ms.get? k = some m → moveOK validSquares m

theorem pruneStep_suffixOK (vs : List (Int × Int)) (ms : List Move) (i : Nat)
    (h : suffixOK vs (i + 1) ms) : suffixOK vs i (pruneStep vs ms i) := by
  unfold pruneStep
  cases hget : ms.get? i with
  | none =>
    intro k hk m hm
    rcases Nat.eq_or_lt_of_le hk with rfl | hlt
    · rw [hget] at hm; cases hm
    · exact h k hlt m hm
  | some m0 =>
    dsimp only
    by_cases hc : m0.pieceMoved.2 ≠ 'K' ∧ ¬((m0.endRow, m0.endCol) ∈ vs)
    · rw [if_pos hc]
      obtain ⟨j, hj, hrm⟩ := removeFirstEq_eraseIdx ms m0 i hget
      rw [hrm]
      intro k hk m hm
      rw [get?_eraseIdx_ge ms j k (le_trans hj hk)] at hm
      exact h (k + 1) (by omega) m hm
    · rw [if_neg hc]
      intro k hk m hm
      rcases Nat.eq_or_lt_of_le hk with rfl | hlt
      · rw [hget] at hm
        injection hm with hm
        subst hm
        unfold moveOK
        by_cases hK : m0.pieceMoved.2 = 'K'
        · exact Or.inl hK
        · right
          by_contra hmem
          exact hc ⟨hK, hmem⟩
      · exact h k hlt m hm

theorem pruneLoop_moveOK (vs : List (Int × Int)) : ∀ (i : Nat) (ms : List Move),
    suffixOK vs i ms → ∀ m ∈ pruneLoop vs i ms, moveOK vs m := by
  intro i
  induction i with
  | zero =>
    intro ms h m hm
    obtain ⟨k, hk⟩ := List.mem_iff_get?.mp hm
    exact h k (Nat.zero_le k) m hk
  | succ i ih =>
    intro ms h m hm
    exact ih (pruneStep vs ms i) (pruneStep_suffixOK vs ms i h) m hm

theorem suffixOK_init (vs : List (Int × Int)) (ms : List Move) :
    suffixOK vs ms.length ms := by
  intro k hk m hm
  rw [List.get?_eq_none.mpr hk] at hm
  cases hm

theorem getPawnMoves_state (gs : GameState) (r c : Int) (ms : List Move)
    (res : List Move × GameState) (h : getPawnMoves gs r c ms = some res) :
    res.2 = { gs with pins := res.2.pins } := by
  simp only [getPawnMoves, Option.map_eq_some'] at h
  obtain ⟨ms1, hms, hres⟩ := h
  rw [← hres]

theorem getRookMoves_state (gs : GameState) (r c : Int) (ms : List Move) :
    (getRookMoves gs r c ms).2 = { gs with pins := (getRookMoves gs r c ms).2.pins } := rfl

theorem getBishopMoves_state (gs : GameState) (r c : Int) (ms : List Move) :
    (getBishopMoves gs r c ms).2 = { gs with pins := (getBishopMoves gs r c ms).2.pins } := rfl

theorem getKnightMoves_state (gs : GameState) (r c : Int) (ms : List Move) :
    (getKnightMoves gs r c ms).2 = { gs with pins := (getKnightMoves gs r c ms).2.pins } := rfl

theorem getQueenMoves_state (gs : GameState) (r c : Int) (ms : List Move) :
    (getQueenMoves gs r c ms).2 = { gs with pins := (getQueenMoves gs r c ms).2.pins } := rfl

theorem kingLoop_board (row col : Int) (ally : Char) :
    ∀ (ds : List (Int × Int)) (ms : List Move) (gs : GameState),
    (kingLoop row col ally ds ms gs).2.board = gs.board := by
  intro ds
  induction ds with
  | nil => intro ms gs; rfl
  | cons d rest ih =>
    intro ms gs
    rw [kingLoop.eq_def]
    dsimp only
    split
    · split
      · refine (ih _ _).trans ?_
        by_cases hA : ally = 'w' <;> simp [hA]
      · exact ih _ _
    · exact ih _ _

theorem kingLoop_whiteToMove (row col : Int) (ally : Char) :
    ∀ (ds : List (Int × Int)) (ms : List Move) (gs : GameState),
    (kingLoop row col ally ds ms gs).2.whiteToMove = gs.whiteToMove := by
  intro ds
  induction ds with
  | nil => intro ms gs; rfl
  | cons d rest ih =>
    intro ms gs
    rw [kingLoop.eq_def]
    dsimp only
    split
    · split
      · refine (ih _ _).trans ?_
        by_cases hA : ally = 'w' <;> simp [hA]
      · exact ih _ _
    · exact ih _ _

theorem kingLoop_moveLog (row col : Int) (ally : Char) :
    ∀ (ds : List (Int × Int)) (ms : List Move) (gs : GameState),
    (kingLoop row col ally ds ms gs).2.moveLog = gs.moveLog := by
  intro ds
  induction ds with
  | nil => intro ms gs; rfl
  | cons d rest ih =>
    intro ms gs
    rw [kingLoop.eq_def]
    dsimp only
    split
    · split
      · refine (ih _ _).trans ?_
        by_cases hA : ally = 'w' <;> simp [hA]
      · exact ih _ _
    · exact ih _ _

theorem kingLoop_pins (row col : Int) (ally : Char) :
    ∀ (ds : List (Int × Int)) (ms : List Move) (gs : GameState),
    (kingLoop row col ally ds ms gs).2.pins = gs.pins := by
  intro ds
  induction ds with
  | nil => intro ms gs; rfl
  | cons d rest ih =>
    intro ms gs
    rw [kingLoop.eq_def]
    dsimp only
    split
    · split
      · refine (ih _ _).trans ?_
        by_cases hA : ally = 'w' <;> simp [hA]
      · exact ih _ _
    · exact ih _ _

theorem kingLoop_inCheck (row col : Int) (ally : Char) :
    ∀ (ds : List (Int × Int)) (ms : List Move) (gs : GameState),
    (kingLoop row col ally ds ms gs).2.inCheck = gs.inCheck := by
  intro ds
  induction ds with
  | nil => intro ms gs; rfl
  | cons d rest ih =>
    intro ms gs
    rw [kingLoop.eq_def]
    dsimp only
    split
    · split
      · refine (ih _ _).trans ?_
        by_cases hA : ally = 'w' <;> simp [hA]
      · exact ih _ _
    · exact ih _ _

theorem kingLoop_checks (row col : Int) (ally : Char) :
    ∀ (ds : List (Int × Int)) (ms : List Move) (gs : GameState),
    (kingLoop row col ally ds ms gs).2.checks = gs.checks := by
  intro ds
  induction ds with
  | nil => intro ms gs; rfl
  | cons d rest ih =>
    intro ms gs
    rw [kingLoop.eq_def]
    dsimp only
    split
    · split
      · refine (ih _ _).trans ?_
        by_cases hA : ally = 'w' <;> simp [hA]
      · exact ih _ _
    · exact ih _ _

theorem kingLoop_wkl (row col : Int) (ally : Char) :
    ∀ (ds : List (Int × Int)) (ms : List Move) (gs : GameState),
    (kingLoop row col ally ds ms gs).2.whiteKingLocation = gs.whiteKingLocation ∨
    (ally = 'w' ∧ (kingLoop row col ally ds ms gs).2.whiteKingLocation = (row, col)) := by
  intro ds
  induction ds with
  | nil => intro ms gs; left; rfl
  | cons d rest ih =>
    intro ms gs
    rw [kingLoop.eq_def]
    dsimp only
    split
    · split
      · refine (ih _ _).elim (fun h => ?_) (fun h => Or.inr h)
        rw [h]
        by_cases hA : ally = 'w' <;> simp [hA]
      · exact ih _ _
    · exact ih _ _

theorem kingLoop_bkl (row col : Int) (ally : Char) :
    ∀ (ds : List (Int × Int)) (ms : List Move) (gs : GameState),
    (kingLoop row col ally ds ms gs).2.blackKingLocation = gs.blackKingLocation ∨
    (¬ally = 'w' ∧ (kingLoop row col ally ds ms gs).2.blackKingLocation = (row, col)) := by
  intro ds
  induction ds with
  | nil => intro ms gs; left; rfl
  | cons d rest ih =>
    intro ms gs
    rw [kingLoop.eq_def]
    dsimp only
    split
    · split
      · refine (ih _ _).elim (fun h => ?_) (fun h => Or.inr h)
        rw [h]
        by_cases hA : ally = 'w' <;> simp [hA]
      · exact ih _ _
    · exact ih _ _

theorem pieceDispatch_state (gs : GameState) (r c : Int) (p : Char) (ms : List Move)
    (res : List Move × GameState) (h : pieceDispatch gs r c p ms = some res) :
    res.2.board = gs.board ∧ res.2.whiteToMove = gs.whiteToMove ∧
    res.2.moveLog = gs.moveLog ∧ res.2.inCheck = gs.inCheck ∧ res.2.checks = gs.checks := by
  unfold pieceDispatch at h
  split at h
  · rw [getPawnMoves_state gs r c ms res h]
    exact ⟨rfl, rfl, rfl, rfl, rfl⟩
  · injection h with h2
    rw [← h2, getRookMoves_state]
    exact ⟨rfl, rfl, rfl, rfl, rfl⟩
  · injection h with h2
    rw [← h2, getKnightMoves_state]
    exact ⟨rfl, rfl, rfl, rfl, rfl⟩
  · injection h with h2
    rw [← h2, getBishopMoves_state]
    exact ⟨rfl, rfl, rfl, rfl, rfl⟩
  · injection h with h2
    rw [← h2, getQueenMoves_state]
    exact ⟨rfl, rfl, rfl, rfl, rfl⟩
  · injection h with h2
    rw [← h2]
    unfold getKingMoves
    exact ⟨kingLoop_board _ _ _ _ _ _, kingLoop_whiteToMove _ _ _ _ _ _,
      kingLoop_moveLog _ _ _ _ _ _, kingLoop_inCheck _ _ _ _ _ _,
      kingLoop_checks _ _ _ _ _ _⟩
  · cases h

theorem gapLoop_frame : ∀ (sqs : List (Int × Int)) (ms : List Move) (gs : GameState)
    (res : List Move × GameState), gapLoop sqs ms gs = some res →
    res.2.board = gs.board ∧ res.2.whiteToMove = gs.whiteToMove ∧
    res.2.moveLog = gs.moveLog ∧ res.2.inCheck = gs.inCheck ∧ res.2.checks = gs.checks := by
  intro sqs
  induction sqs with
  | nil =>
    intro ms gs res h
    injection h with h2
    rw [← h2]
    exact ⟨rfl, rfl, rfl, rfl, rfl⟩
  | cons rc rest ih =>
    intro ms gs res h
    cases rc with
    | mk r c =>
    rw [gapLoop.eq_def] at h
    dsimp only at h
    split at h
    · cases hd : pieceDispatch gs r c (pyGet gs.board r c).2 ms with
      | none => rw [hd] at h; exact absurd h (by simp)
      | some pr =>
        cases pr with
        | mk m1 gs1 =>
        rw [hd] at h
        obtain ⟨h1, h2, h3, h4, h5⟩ := ih m1 gs1 res h
        obtain ⟨b1, b2, b3, b4, b5⟩ := pieceDispatch_state gs r c _ ms (m1, gs1) hd
        exact ⟨h1.trans b1, h2.trans b2, h3.trans b3, h4.trans b4, h5.trans b5⟩
    · exact ih ms gs res h

theorem getValidMoves_eq_aux (gs : GameState) :
    getValidMoves gs = getValidMovesAux (analysisSet gs) := rfl

theorem kingSq_analysisSet (gs : GameState) : kingSq (analysisSet gs) = kingSq gs := rfl

/-- C1: the claim is violated by the code.  In `gsC1b` the analysis
reports the single knight check (6,5,2,1), yet `getValidMoves` returns the
pawn move (1,0) to (0,0) - a non-King move that neither captures the
knight on (6,5) nor lands on any blocking square: the pruning loop
(lines 94-99) is indented inside the non-knight `else:` branch, so a lone
knight check leaves every pseudo-legal move in the result, and the
knight-branch blocking set `[(checkRow, checkCol)]` is dead code. -/
theorem c1_knight_check_unpruned :
    (checkForPinsAndChecks gsC1b).2.2 = [(6, 5, 2, 1)] ∧
    pyGet gsC1b.board 6 5 = ('b', 'N') ∧
    (getValidMoves gsC1b).map (fun p =>
      p.1.any (fun m =>
        decide (m.pieceMoved = ('w', 'P') ∧ m.startRow = 1 ∧ m.startCol = 0 ∧
          m.endRow = 0 ∧ m.endCol = 0))) = some true ∧
    ¬(((0 : Int), (0 : Int)) = ((6 : Int), (5 : Int))) := by
  refine ⟨by decide, by decide, by decide, by decide⟩

theorem mem_ite_list {c : Prop} [Decidable c] {a : Move} {l1 l2 : List Move}
    (h : a ∈ if c then l1 else l2) : a ∈ l1 ∨ a ∈ l2 := by
  split at h
  · exact Or.inl h
  · exact Or.inr h

theorem kingLoop_moves (row col : Int) (ally : Char) :
    ∀ (ds : List (Int × Int)) (ms : List Move) (gs : GameState),
    ∀ m ∈ (kingLoop row col ally ds ms gs).1, m ∈ ms ∨
      (m.pieceMoved = pyGet gs.board row col ∧ m.startRow = row ∧ m.startCol = col) := by
  intro ds
  induction ds with
  | nil => intro ms gs m hm; exact Or.inl hm
  | cons d rest ih =>
    intro ms gs m hm
    rw [kingLoop.eq_def] at hm
    dsimp only at hm
    split at hm
    · split at hm
      · rcases ih _ _ m hm with h | h
        · rcases mem_ite_list h with h | h
          · rw [List.mem_append] at h
            rcases h with h | h
            · exact Or.inl h
            · rw [List.mem_singleton] at h
              subst h
              right
              refine ⟨?_, rfl, rfl⟩
              by_cases hA : ally = 'w' <;> simp [Move.ofBoard, hA]
          · exact Or.inl h
        · right
          refine ⟨?_, h.2.1, h.2.2⟩
          rw [h.1]
          by_cases hA : ally = 'w' <;> simp [hA]
      · exact ih _ _ m hm
    · exact ih _ _ m hm

/-- C6 (amended): if the analysis reports two or more checks AND the cached
king square actually holds the moving side's king, then the returned
sequence is exactly the king generator's output and every move in it moves
that king from the cached square. -/
theorem c6_double_check_king_moves (gs : GameState)
    (h2c : 2 ≤ ((checkForPinsAndChecks gs).2.2).length)
    (hk : pyGet gs.board (kingSq gs).1 (kingSq gs).2 =
      ((if gs.whiteToMove then 'w' else 'b'), 'K'))
    (ms : List Move) (st : GameState) (hv : getValidMoves gs = some (ms, st)) :
    ms = (getKingMoves (analysisSet gs) (kingSq gs).1 (kingSq gs).2 []).1 ∧
    ∀ m ∈ ms, m.pieceMoved = ((if gs.whiteToMove then 'w' else 'b'), 'K') ∧
      (m.startRow, m.startCol) = kingSq gs := by
  have hflag : (checkForPinsAndChecks gs).1 = true := by
    apply checks_imp_inCheck
    intro hnil
    rw [hnil] at h2c
    exact absurd h2c (by decide)
  have hic : (analysisSet gs).inCheck = true := hflag
  have hlen : ¬ (analysisSet gs).checks.length = 1 := by
    intro hl
    have : ((checkForPinsAndChecks gs).2.2).length = 1 := hl
    omega
  rw [getValidMoves_eq_aux] at hv
  unfold getValidMovesAux at hv
  dsimp only at hv
  rw [if_pos hic, if_neg hlen] at hv
  injection hv with hv
  have hms : ms = (getKingMoves (analysisSet gs) (kingSq gs).1 (kingSq gs).2 []).1 :=
    congrArg Prod.fst hv.symm
  refine ⟨hms, ?_⟩
  intro m hm
  rw [hms] at hm
  unfold getKingMoves at hm
  rcases kingLoop_moves (kingSq gs).1 (kingSq gs).2 _ kingOffsets [] (analysisSet gs) m hm
    with h | h
  · cases h
  · have hb : pyGet (analysisSet gs).board (kingSq gs).1 (kingSq gs).2 =
        pyGet gs.board (kingSq gs).1 (kingSq gs).2 := rfl
    refine ⟨?_, ?_⟩
    · rw [h.1, hb, hk]
    · rw [Prod.ext_iff]
      exact ⟨h.2.1, h.2.2⟩

/-- Witness for C6 at a genuine double check (two black rooks, king e4). -/
theorem c6_double_check_king_moves_witness :
    2 ≤ ((checkForPinsAndChecks gsW6).2.2).length ∧
    (∀ m ∈ ((getValidMoves gsW6).getD ([], gsW6)).1,
      m.pieceMoved = ((if gsW6.whiteToMove then 'w' else 'b'), 'K') ∧
      (m.startRow, m.startCol) = kingSq gsW6) :=
  ⟨by decide,
    (c6_double_check_king_moves gsW6 (by decide) (by decide)
      ((getValidMoves gsW6).getD ([], gsW6)).1 ((getValidMoves gsW6).getD ([], gsW6)).2
      (by rfl)).2⟩

theorem pyGet_eq_board {b : Board} {r c : Int} (h : 0 ≤ r ∧ r < 8 ∧ 0 ≤ c ∧ c < 8) :
    pyGet b r c = b ⟨r.toNat, by omega⟩ ⟨c.toNat, by omega⟩ := by
  unfold pyGet pyGet? pyIdx
  rw [dif_pos ⟨h.1, h.2.1⟩, dif_pos ⟨h.2.2.1, h.2.2.2⟩]
  rfl

theorem cacheCoherent_of_eq {gs1 gs : GameState} (hb : gs1.board = gs.board)
    (ht : gs1.whiteToMove = gs.whiteToMove)
    (hw : gs1.whiteKingLocation = gs.whiteKingLocation)
    (hbk : gs1.blackKingLocation = gs.blackKingLocation) (h : cacheCoherent gs) :
    cacheCoherent gs1 := by
  intro r c hc
  rw [hb, ht] at hc
  have h2 := h r c hc
  unfold kingSq at h2 ⊢
  rw [ht, hw, hbk]
  exact h2

theorem gapLoop_caches :
    ∀ (sqs : List (Int × Int)), (∀ p ∈ sqs, 0 ≤ p.1 ∧ p.1 < 8 ∧ 0 ≤ p.2 ∧ p.2 < 8) →
    ∀ (ms : List Move) (gs : GameState), cacheCoherent gs →
    ∀ (res : List Move × GameState), gapLoop sqs ms gs = some res →
    res.2.whiteKingLocation = gs.whiteKingLocation ∧
    res.2.blackKingLocation = gs.blackKingLocation := by
  intro sqs
  induction sqs with
  | nil =>
    intro _ ms gs _ res h
    injection h with h2
    rw [← h2]
    exact ⟨rfl, rfl⟩
  | cons rc rest ih =>
    intro hin ms gs hcoh res h
    have hinr : ∀ p ∈ rest, 0 ≤ p.1 ∧ p.1 < 8 ∧ 0 ≤ p.2 ∧ p.2 < 8 :=
      fun p hp => hin p (List.mem_cons_of_mem rc hp)
    have hin0 := hin rc (List.mem_cons_self rc rest)
    cases rc with
    | mk r c =>
    rw [gapLoop.eq_def] at h
    dsimp only at h
    split at h
    · rename_i hturn
      cases hd : pieceDispatch gs r c (pyGet gs.board r c).2 ms with
      | none => rw [hd] at h; exact absurd h (by simp)
      | some pr =>
        cases pr with
        | mk m1 gs1 =>
        rw [hd] at h
        have hfix : gs1.whiteKingLocation = gs.whiteKingLocation ∧
            gs1.blackKingLocation = gs.blackKingLocation ∧
            gs1.board = gs.board ∧ gs1.whiteToMove = gs.whiteToMove := by
          unfold pieceDispatch at hd
          split at hd
          · have := getPawnMoves_state gs r c ms (m1, gs1) hd
            have hgs1 : gs1 = { gs with pins := gs1.pins } := this
            rw [hgs1]
            exact ⟨rfl, rfl, rfl, rfl⟩
          · injection hd with hd2
            have hgs1 : gs1 = (getRookMoves gs r c ms).2 := congrArg Prod.snd hd2.symm
            rw [hgs1, getRookMoves_state]
            exact ⟨rfl, rfl, rfl, rfl⟩
          · injection hd with hd2
            have hgs1 : gs1 = (getKnightMoves gs r c ms).2 := congrArg Prod.snd hd2.symm
            rw [hgs1, getKnightMoves_state]
            exact ⟨rfl, rfl, rfl, rfl⟩
          · injection hd with hd2
            have hgs1 : gs1 = (getBishopMoves gs r c ms).2 := congrArg Prod.snd hd2.symm
            rw [hgs1, getBishopMoves_state]
            exact ⟨rfl, rfl, rfl, rfl⟩
          · injection hd with hd2
            have hgs1 : gs1 = (getQueenMoves gs r c ms).2 := congrArg Prod.snd hd2.symm
            rw [hgs1, getQueenMoves_state]
            exact ⟨rfl, rfl, rfl, rfl⟩
          · -- the king: the cell at (r, c) is the moving side's king, so by
            -- coherence the restore square (r, c) is the cached location
            rename_i hpk
            injection hd with hd2
            have hgs1 : gs1 = (getKingMoves gs r c ms).2 := congrArg Prod.snd hd2.symm
            have hcell : pyGet gs.board r c =
                ((if gs.whiteToMove then 'w' else 'b'), 'K') := by
              have h1 : (pyGet gs.board r c).1 = (if gs.whiteToMove then 'w' else 'b') := by
                rcases hturn with ⟨h1, h2⟩ | ⟨h1, h2⟩ <;> rw [h1, h2] <;> simp
              have h2 : (pyGet gs.board r c).2 = 'K' := hpk
              rw [← h1, ← h2]
            have hks : kingSq gs = (r, c) := by
              have hb := pyGet_eq_board (b := gs.board) hin0
              rw [hb] at hcell
              have := hcoh _ _ hcell
              rw [this]
              have hr : ((Int.toNat r : Nat) : Int) = r := Int.toNat_of_nonneg hin0.1
              have hc : ((Int.toNat c : Nat) : Int) = c := Int.toNat_of_nonneg hin0.2.2.1
              rw [hr, hc]
            refine ⟨?_, ?_, ?_, ?_⟩
            · rw [hgs1]
              unfold getKingMoves
              dsimp only
              rcases kingLoop_wkl r c _ kingOffsets ms gs with h2 | h2
              · exact h2
              · rw [h2.2]
                have hwtm : gs.whiteToMove = true := by
                  by_contra hf
                  simp only [Bool.not_eq_true] at hf
                  rw [if_neg (by simp [hf])] at h2
                  exact absurd h2.1 (by decide)
                rw [← hks]
                unfold kingSq
                rw [if_pos hwtm]
            · rw [hgs1]
              unfold getKingMoves
              dsimp only
              rcases kingLoop_bkl r c _ kingOffsets ms gs with h2 | h2
              · exact h2
              · rw [h2.2]
                have hwtm : gs.whiteToMove = false := by
                  by_cases hf : gs.whiteToMove = true
                  · rw [if_pos (by simp [hf])] at h2
                    exact absurd rfl h2.1
                  · simpa using hf
                rw [← hks]
                unfold kingSq
                rw [if_neg (by simp [hwtm])]
            · rw [hgs1]
              unfold getKingMoves
              dsimp only
              exact kingLoop_board _ _ _ _ _ _
            · rw [hgs1]
              unfold getKingMoves
              dsimp only
              exact kingLoop_whiteToMove _ _ _ _ _ _
          · cases hd
        have hfb : gs1.board = gs.board := hfix.2.2.1
        have hft : gs1.whiteToMove = gs.whiteToMove := hfix.2.2.2
        have hcoh1 : cacheCoherent gs1 :=
          cacheCoherent_of_eq hfb hft hfix.1 hfix.2.1 hcoh
        obtain ⟨w1, w2⟩ := ih hinr m1 gs1 hcoh1 res h
        exact ⟨w1.trans hfix.1, w2.trans hfix.2.1⟩
    · exact ih hinr ms gs hcoh res h

theorem allSquares_inRange : ∀ p ∈ allSquares, 0 ≤ p.1 ∧ p.1 < 8 ∧ 0 ≤ p.2 ∧ p.2 < 8 := by
  decide

theorem gvm_preserves (gs : GameState) (hcoh : cacheCoherent gs) (ms : List Move)
    (st : GameState) (hv : getValidMoves gs = some (ms, st)) :
    st.board = gs.board ∧ st.whiteToMove = gs.whiteToMove ∧ st.moveLog = gs.moveLog ∧
    st.whiteKingLocation = gs.whiteKingLocation ∧
    st.blackKingLocation = gs.blackKingLocation := by
  have hcoh0 : cacheCoherent (analysisSet gs) :=
    cacheCoherent_of_eq rfl rfl rfl rfl hcoh
  rw [getValidMoves_eq_aux] at hv
  unfold getValidMovesAux at hv
  dsimp only at hv
  by_cases hic : (analysisSet gs).inCheck = true
  · rw [if_pos hic] at hv
    by_cases hlen : (analysisSet gs).checks.length = 1
    · rw [if_pos hlen] at hv
      cases hgap : getAllPossibleMoves (analysisSet gs) with
      | none => rw [hgap] at hv; cases hv
      | some pr =>
        cases pr with
        | mk moves gs1 =>
        rw [hgap] at hv
        dsimp only at hv
        split at hv <;>
          (injection hv with hv
           injection hv with hA hB
           subst hB
           obtain ⟨f1, f2, f3, _, _⟩ := gapLoop_frame _ _ _ _ hgap
           obtain ⟨c1, c2⟩ :=
             gapLoop_caches allSquares allSquares_inRange [] (analysisSet gs) hcoh0
               (moves, gs1) hgap
           exact ⟨f1, f2, f3, c1, c2⟩)
    · rw [if_neg hlen] at hv
      injection hv with hv
      have hst : st = (getKingMoves (analysisSet gs) (kingSq (analysisSet gs)).1
          (kingSq (analysisSet gs)).2 []).2 := congrArg Prod.snd hv.symm
      rw [hst]
      unfold getKingMoves
      dsimp only
      refine ⟨kingLoop_board _ _ _ _ _ _, kingLoop_whiteToMove _ _ _ _ _ _,
        kingLoop_moveLog _ _ _ _ _ _, ?_, ?_⟩
      · rcases kingLoop_wkl (kingSq (analysisSet gs)).1 (kingSq (analysisSet gs)).2 _
          kingOffsets [] (analysisSet gs) with h2 | h2
        · exact h2
        · rw [h2.2]
          have hwtm : gs.whiteToMove = true := by
            by_contra hf
            simp only [Bool.not_eq_true] at hf
            have hf' : (analysisSet gs).whiteToMove = false := hf
            rw [if_neg (by simp [hf'])] at h2
            exact absurd h2.1 (by decide)
          show ((kingSq gs).1, (kingSq gs).2) = gs.whiteKingLocation
          unfold kingSq
          rw [if_pos hwtm]
      · rcases kingLoop_bkl (kingSq (analysisSet gs)).1 (kingSq (analysisSet gs)).2 _
          kingOffsets [] (analysisSet gs) with h2 | h2
        · exact h2
        · rw [h2.2]
          have hwtm : gs.whiteToMove = false := by
            by_cases hf : gs.whiteToMove = true
            · have hf' : (analysisSet gs).whiteToMove = true := hf
              rw [if_pos (by simp [hf'])] at h2
              exact absurd rfl h2.1
            · simpa using hf
          show ((kingSq gs).1, (kingSq gs).2) = gs.blackKingLocation
          unfold kingSq
          rw [if_neg (by simp [hwtm])]
  · rw [if_neg hic] at hv
    obtain ⟨f1, f2, f3, _, _⟩ := gapLoop_frame _ _ _ _ hv
    obtain ⟨c1, c2⟩ :=
      gapLoop_caches allSquares allSquares_inRange [] (analysisSet gs) hcoh0 (ms, st) hv
    exact ⟨f1, f2, f3, c1, c2⟩

/-- C10 (amended): for every game state whose moving-side king cache is
coherent with the board, `getValidMoves` leaves the board, the move
history, the active color and both King-location caches unchanged; only
the cached analysis fields are overwritten. -/
theorem c10_frame (gs : GameState) (hcoh : cacheCoherent gs) (ms : List Move)
    (st : GameState) (hv : getValidMoves gs = some (ms, st)) :
    st = { gs with inCheck := st.inCheck, pins := st.pins, checks := st.checks } := by
  obtain ⟨h1, h2, h3, h4, h5⟩ := gvm_preserves gs hcoh ms st hv
  exact GameState.ext2 h1 h2 h3 h4 h5 rfl rfl rfl

set_option maxRecDepth 4000 in
/-- Witness for C10 at the initial position. -/
theorem c10_frame_witness :
    cacheCoherent initialGameState ∧
    ((getValidMoves initialGameState).getD ([], initialGameState)).2 =
      { initialGameState with
          inCheck := ((getValidMoves initialGameState).getD ([], initialGameState)).2.inCheck
          pins := ((getValidMoves initialGameState).getD ([], initialGameState)).2.pins
          checks := ((getValidMoves initialGameState).getD ([], initialGameState)).2.checks } :=
  ⟨by decide,
    c10_frame initialGameState (by decide)
      ((getValidMoves initialGameState).getD ([], initialGameState)).1
      ((getValidMoves initialGameState).getD ([], initialGameState)).2 (by rfl)⟩

theorem checkForPinsAndChecks_congr {gs1 gs : GameState} (hb : gs1.board = gs.board)
    (ht : gs1.whiteToMove = gs.whiteToMove)
    (hw : gs1.whiteKingLocation = gs.whiteKingLocation)
    (hbk : gs1.blackKingLocation = gs.blackKingLocation) :
    checkForPinsAndChecks gs1 = checkForPinsAndChecks gs := by
  unfold checkForPinsAndChecks kingSq
  simp only [hb, ht, hw, hbk]

/-- C8 (amended): for every game state whose moving-side king cache is
coherent with the board, a second `getValidMoves` call on the state left by
the first returns the identical move sequence (and the identical state). -/
theorem c8_idempotent (gs : GameState) (hcoh : cacheCoherent gs) (ms : List Move)
    (gs1 : GameState) (hv : getValidMoves gs = some (ms, gs1)) :
    getValidMoves gs1 = some (ms, gs1) := by
  obtain ⟨h1, h2, h3, h4, h5⟩ := gvm_preserves gs hcoh ms gs1 hv
  have hcfpc : checkForPinsAndChecks gs1 = checkForPinsAndChecks gs :=
    checkForPinsAndChecks_congr h1 h2 h4 h5
  have hset : analysisSet gs1 = analysisSet gs := by
    unfold analysisSet
    rw [hcfpc]
    exact GameState.ext2 h1 h2 h3 h4 h5 rfl rfl rfl
  rw [getValidMoves_eq_aux, hset, ← getValidMoves_eq_aux]
  exact hv

set_option maxRecDepth 4000 in
/-- Witness for C8 at the initial position. -/
theorem c8_idempotent_witness :
    cacheCoherent initialGameState ∧
    getValidMoves ((getValidMoves initialGameState).getD ([], initialGameState)).2 =
      some (((getValidMoves initialGameState).getD ([], initialGameState)).1,
        ((getValidMoves initialGameState).getD ([], initialGameState)).2) :=
  ⟨by decide,
    c8_idempotent initialGameState (by decide)
      ((getValidMoves initialGameState).getD ([], initialGameState)).1
      ((getValidMoves initialGameState).getD ([], initialGameState)).2 (by rfl)⟩
